import Mathlib

/- Verification of the schema-inference core of json-schema-generator
   (src/src/lib.rs). The library works on serde_json values; with
   serde_json's default feature set a JSON object is a
   BTreeMap<String, Value>, so an object node is held here as an
   association list in BTreeMap iteration order (ascending keys), and
   serde_json's `==` on values is plain structural equality of these
   trees. Rust operations that can panic (map indexing on a missing key,
   `unwrap` on `as_object`/`as_str`) are embedded as `Option`, with
   `none` standing for the panic. -/

namespace JsonSchemaGen

/-- serde_json `Number` with default features: a nonnegative integer held
    as `u64`, a negative integer held as `i64`, or a finite `f64`. A
    finite double is uniquely determined by the rational number it
    denotes, and `f64` equality on finite doubles coincides with equality
    of those rationals, so the float arm carries that rational. -/
inductive JNum where
  | posInt : Nat → JNum
  | negInt : Int → JNum
  | float : Rat → JNum
deriving DecidableEq

/-- `i64::MAX` -/
def i64Max : Nat := 9223372036854775807

/-- serde_json `Number::is_i64`: a `u64` payload qualifies iff it fits in
    `i64`, a negative payload always qualifies, a float never does. -/
def JNum.is_i64 : JNum → Bool
  | .posInt n => decide (n ≤ i64Max)
  | .negInt _ => true
  | .float _ => false

/-- The payload ranges serde_json's parser actually produces: `u64` for
    `posInt` and negative `i64` for `negInt`. -/
def JNum.serde_ok : JNum → Bool
  | .posInt n => decide (n < 18446744073709551616)
  | .negInt z => decide (-9223372036854775808 ≤ z ∧ z < 0)
  | .float _ => true

/-- serde_json `Value`. -/
inductive Json where
  | null
  | bool : Bool → Json
  | num : JNum → Json
  | str : String → Json
  | arr : List Json → Json
  | obj : List (String × Json) → Json

mutual

/-- Structural equality of serde_json values (`PartialEq` on `Value`). -/
def Json.beq : Json → Json → Bool
  | .null, .null => true
  | .bool a, .bool b => a == b
  | .num a, .num b => a == b
  | .str a, .str b => a == b
  | .arr as, .arr bs => Json.beqList as bs
  | .obj fs, .obj gs => Json.beqFields fs gs
  | _, _ => false

def Json.beqList : List Json → List Json → Bool
  | [], [] => true
  | a :: as, b :: bs => Json.beq a b && Json.beqList as bs
  | _, _ => false

def Json.beqFields : List (String × Json) → List (String × Json) → Bool
  | [], [] => true
  | (k, v) :: fs, (k', v') :: gs => k == k' && Json.beq v v' && Json.beqFields fs gs
  | _, _ => false

end

/-- Induction over `Json` that hands the inductive hypothesis to every
    member of a nested list. -/
theorem Json.recAux {P : Json → Prop}
    (hnull : P .null) (hbool : ∀ b, P (.bool b)) (hnum : ∀ n, P (.num n))
    (hstr : ∀ s, P (.str s))
    (harr : ∀ es, (∀ e ∈ es, P e) → P (.arr es))
    (hobj : ∀ fs, (∀ kv ∈ fs, P kv.2) → P (.obj fs)) : ∀ j, P j := by
  have key : ∀ n (j : Json), sizeOf j ≤ n → P j := by
    intro n
    induction n with
    | zero => intro j h; cases j <;> simp at h
    | succ n ih =>
      intro j hj
      match j with
      | .null => exact hnull
      | .bool b => exact hbool b
      | .num m => exact hnum m
      | .str s => exact hstr s
      | .arr es =>
        refine harr es fun e he => ih e ?_
        have h1 := List.sizeOf_lt_of_mem he
        have h2 : sizeOf (Json.arr es) = 1 + sizeOf es := by simp
        omega
      | .obj fs =>
        refine hobj fs fun kv hkv => ih kv.2 ?_
        have h1 := List.sizeOf_lt_of_mem hkv
        have h2 : sizeOf kv.2 < sizeOf kv := by
          obtain ⟨k, v⟩ := kv
          simp
        have h3 : sizeOf (Json.obj fs) = 1 + sizeOf fs := by simp
        omega
  exact fun j => key (sizeOf j) j le_rfl

theorem Json.beq_iff_eq : ∀ a b : Json, Json.beq a b = true ↔ a = b := by
  have hl : ∀ as : List Json, (∀ e ∈ as, ∀ b, Json.beq e b = true ↔ e = b) →
      ∀ bs, Json.beqList as bs = true ↔ as = bs := by
    intro as
    induction as with
    | nil => intro _ bs; cases bs <;> simp [Json.beqList]
    | cons a as ih =>
      intro h bs
      cases bs with
      | nil => simp [Json.beqList]
      | cons b bs =>
        have ha := h a (by simp)
        have hrest := ih (fun e he b' => h e (by simp [he]) b') bs
        simp [Json.beqList, ha, hrest]
  have hf : ∀ fs : List (String × Json), (∀ kv ∈ fs, ∀ b, Json.beq kv.2 b = true ↔ kv.2 = b) →
      ∀ gs, Json.beqFields fs gs = true ↔ fs = gs := by
    intro fs
    induction fs with
    | nil => intro _ gs; cases gs <;> simp [Json.beqFields]
    | cons kv fs ih =>
      intro h gs
      obtain ⟨k, v⟩ := kv
      cases gs with
      | nil => simp [Json.beqFields]
      | cons kv' gs =>
        obtain ⟨k', v'⟩ := kv'
        have hv := h (k, v) (by simp)
        have hrest := ih (fun e he b' => h e (by simp [he]) b') gs
        simp [Json.beqFields, hv, hrest, and_assoc]
  intro a
  induction a using Json.recAux with
  | hnull => intro b; cases b <;> simp [Json.beq]
  | hbool x => intro b; cases b <;> simp [Json.beq]
  | hnum x => intro b; cases b <;> simp [Json.beq]
  | hstr x => intro b; cases b <;> simp [Json.beq]
  | harr es ihe =>
    intro b
    cases b <;> simp [Json.beq]
    exact hl es ihe _
  | hobj fs ihf =>
    intro b
    cases b <;> simp [Json.beq]
    exact hf fs ihf _

instance : DecidableEq Json := fun a b =>
  decidable_of_iff (Json.beq a b = true) (Json.beq_iff_eq a b)

/-- Lexicographic comparison of char lists. For valid UTF-8, byte-wise
    comparison (Rust's `str::cmp`, hence `BTreeMap`'s key order and
    `sort_by`'s comparator below) agrees with code-point order, which this
    computes. -/
def charListLt : List Char → List Char → Bool
  | _, [] => false
  | [], _ :: _ => true
  | a :: as, b :: bs => if a < b then true else if b < a then false else charListLt as bs

/-- Rust `str` order, strict part. -/
def strLt (a b : String) : Bool := charListLt a.data b.data

/-- Rust `str` order, reflexive closure. -/
def strLe (a b : String) : Bool := strLt a b || a == b

/-- `BTreeMap::get` / `contains_key` on the iteration list. -/
def mapGet : List (String × Json) → String → Option Json
  | [], _ => none
  | (k', v) :: rest, k => if k' = k then some v else mapGet rest k

/-- `BTreeMap::insert` (also the effect of `map[key] = value` assignment):
    place the binding at its ordered position, replacing an equal key. -/
def mapInsert (k : String) (v : Json) : List (String × Json) → List (String × Json)
  | [] => [(k, v)]
  | (k', v') :: rest =>
    if strLt k k' then (k, v) :: (k', v') :: rest
    else if k = k' then (k, v) :: rest
    else (k', v') :: mapInsert k v rest

/-- `BTreeMap::remove`: drop the binding of the key, if any. -/
def mapRemove : List (String × Json) → String → List (String × Json)
  | [], _ => []
  | (k', v') :: rest, k => if k' = k then rest else (k', v') :: mapRemove rest k

def Json.as_object : Json → Option (List (String × Json))
  | .obj fs => some fs
  | _ => none

def Json.as_str : Json → Option String
  | .str s => some s
  | _ => none

/-- The draft-07 dialect URI string from `generate_object_schema`. -/
def draft07 : Json := .str "http://json-schema.org/draft-07/schema#"

/-- `json!({"type": t})` -/
def mkType (t : String) : Json := .obj [("type", .str t)]

/-- The loop of `merge_schemas` that rebuilds one `properties` map from
    `props1.iter().chain(props2.iter())` by inserting into a fresh map. -/
def mergeProps (props1 props2 : List (String × Json)) : List (String × Json) :=
  (props1 ++ props2).foldl (fun acc kv => mapInsert kv.1 kv.2 acc) []

/-- `merge_schemas` from src/lib.rs. `none` models a panic: indexing
    `obj1["type"]` when both sides lack a `type` key, or
    `as_object().unwrap()` on a non-object `properties` value. -/
def merge_schemas (schema1 schema2 : Json) : Option Json :=
  if schema1 = schema2 then
    some schema1
  else
    match schema1, schema2 with
    | .obj obj1, .obj obj2 =>
      if mapGet obj1 "type" = mapGet obj2 "type" then
        match mapGet obj1 "type" with
        | none => none
        | some t =>
          if (mapGet obj1 "properties").isSome && (mapGet obj2 "properties").isSome then
            match (mapGet obj1 "properties").bind Json.as_object,
                  (mapGet obj2 "properties").bind Json.as_object with
            | some props1, some props2 =>
              some (.obj [("properties", .obj (mergeProps props1 props2)), ("type", t)])
            | _, _ => none
          else
            some (.obj [("type", t)])
      else
        some (.obj [("oneOf", .arr [schema1, schema2])])
    | _, _ => some (.obj [("oneOf", .arr [schema1, schema2])])

/-- `find_common_schema` from src/lib.rs: left fold of `merge_schemas`
    over the tail, seeded with the head. -/
def find_common_schema (schemas : List Json) : Option Json :=
  match schemas with
  | [] => some (.obj [])
  | first :: rest => List.foldlM (fun common s => merge_schemas common s) first rest

/-- `sub_schema.as_object_mut()` followed by `remove("$schema")`: strip a
    top-level dialect marker off an object node, leave anything else. -/
def removeSchemaKey : Json → Json
  | .obj fs => .obj (mapRemove fs "$schema")
  | j => j

/-- The order used by `required.sort_by(|a, b| a.as_str().unwrap().cmp(..))`. -/
def StrLeP (a b : String) : Prop := strLe a b = true

instance : DecidableRel StrLeP := fun a b =>
  inferInstanceAs (Decidable (strLe a b = true))

/-- `as_str().unwrap()` applied to every entry of the `required` array:
    `none` models the panic on a non-string entry. -/
def mapAsStrs : List Json → Option (List String)
  | [] => some []
  | j :: rest =>
    match j.as_str with
    | none => none
    | some s =>
      match mapAsStrs rest with
      | none => none
      | some ss => some (s :: ss)

/-- The `sort_by` call on the `required` array: every entry is unwrapped
    as a string (panic, hence `none`, on a non-string entry) and the
    entries are sorted by string order. A stable sort of string nodes by
    their content produces the same list as sorting the contents and
    re-wrapping, because entries comparing equal are identical values. -/
def sortRequired (required : List Json) : Option (List Json) :=
  match mapAsStrs required with
  | none => none
  | some strs => some ((strs.insertionSort StrLeP).map Json.str)

/-- The object schema node as assembled by `generate_object_schema`, in
    BTreeMap iteration order: optional `$ref`, then `$schema`,
    `properties`, `required`, `type`. -/
def assembleObjectSchema (refv : Option Json) (props : List (String × Json))
    (required : List Json) : Json :=
  match refv with
  | some r => .obj [("$ref", r), ("$schema", draft07), ("properties", .obj props),
      ("required", .arr required), ("type", .str "object")]
  | none => .obj [("$schema", draft07), ("properties", .obj props),
      ("required", .arr required), ("type", .str "object")]

mutual

/-- `generate_json_schema` from src/lib.rs. -/
def generate_json_schema : Json → Option Json
  | .obj fields =>
    (match objectLoop fields none [] [] with
     | none => none
     | some (refv, props, required) =>
       match sortRequired required with
       | none => none
       | some sorted => some (assembleObjectSchema refv props sorted))
  | .arr a =>
    (if a.isEmpty then some (.obj [("items", .obj []), ("type", .str "array")])
     else
       match mapGenSchemas a with
       | none => none
       | some itemSchemas =>
         match find_common_schema itemSchemas with
         | none => none
         | some common => some (.obj [("items", common), ("type", .str "array")]))
  | .str _ => some (mkType "string")
  | .num n => some (mkType (if n.is_i64 then "integer" else "number"))
  | .bool _ => some (mkType "boolean")
  | .null => some (mkType "null")

/-- The `for (key, value) in obj` loop of `generate_object_schema`,
    carrying the `$ref` assignment, the `properties` map and the
    `required` array as explicit state. -/
def objectLoop : List (String × Json) → Option Json → List (String × Json) → List Json →
    Option (Option Json × List (String × Json) × List Json)
  | [], refv, props, required => some (refv, props, required)
  | (key, value) :: rest, refv, props, required =>
    if key = "$ref" then
      objectLoop rest (some value) props required
    else
      match generate_json_schema value with
      | none => none
      | some sub =>
        objectLoop rest refv (mapInsert key (removeSchemaKey sub) props)
          (required ++ [Json.str key])

/-- `arr.iter().map(generate_json_schema).collect()` -/
def mapGenSchemas : List Json → Option (List Json)
  | [] => some []
  | j :: rest =>
    match generate_json_schema j with
    | none => none
    | some s =>
      match mapGenSchemas rest with
      | none => none
      | some ss => some (s :: ss)

end

/-- `generate_object_schema` from src/lib.rs: the `if let Value::Object`
    body (the loop runs only for object input), the `required` sort, and
    the `$schema` insertion. -/
def generate_object_schema (v : Json) : Option Json :=
  match v with
  | .obj fields =>
    (match objectLoop fields none [] [] with
     | none => none
     | some (refv, props, required) =>
       match sortRequired required with
       | none => none
       | some sorted => some (assembleObjectSchema refv props sorted))
  | _ =>
    match sortRequired [] with
    | none => none
    | some sorted => some (assembleObjectSchema none [] sorted)

/-- `generate_array_schema` from src/lib.rs. -/
def generate_array_schema (a : List Json) : Option Json :=
  if a.isEmpty then some (.obj [("items", .obj []), ("type", .str "array")])
  else
    match mapGenSchemas a with
    | none => none
    | some itemSchemas =>
      match find_common_schema itemSchemas with
      | none => none
      | some common => some (.obj [("items", common), ("type", .str "array")])

/-! Derived notions used to state and prove the properties below. -/

/-- The node is an object carrying a `type` key. -/
def HasTypeKey : Json → Prop
  | .obj fs => (mapGet fs "type").isSome = true
  | _ => False

/-- If the node is an object with a `properties` key, that key holds an
    object (so `as_object().unwrap()` on it cannot panic). -/
def PropsOk : Json → Prop
  | .obj fs => ∀ p, mapGet fs "properties" = some p → ∃ ps, p = .obj ps
  | _ => True

def GoodSchema (s : Json) : Prop := HasTypeKey s ∧ PropsOk s

/-- Decidable form of `PropsOk` for an object's field list. -/
def propsEntryIsObj (fs : List (String × Json)) : Bool :=
  match mapGet fs "properties" with
  | none => true
  | some (.obj _) => true
  | some _ => false

/-- The keys of an object other than `$ref`, in iteration order. -/
def nonRefKeys : List (String × Json) → List String
  | [] => []
  | (key, _) :: rest => if key = "$ref" then nonRefKeys rest else key :: nonRefKeys rest

/-- The value the repeated `schema["$ref"] = value` assignments leave
    behind: the last `$ref` binding, if any. -/
def lastRefVal (fields : List (String × Json)) (refv : Option Json) : Option Json :=
  fields.foldl (fun acc kv => if kv.1 = "$ref" then some kv.2 else acc) refv

/-- Modelled from the spec's wording of the number rule: the numeral is
    written as an integer (not a float) and its value is representable as
    a signed 64-bit integer. -/
def specIntegerNumeral : JNum → Prop
  | .posInt n => n ≤ i64Max
  | .negInt z => -9223372036854775808 ≤ z
  | .float _ => False

theorem generate_json_schema_obj (fields : List (String × Json)) :
    generate_json_schema (.obj fields) = generate_object_schema (.obj fields) := by
  simp [generate_json_schema, generate_object_schema]

theorem generate_json_schema_arr (a : List Json) :
    generate_json_schema (.arr a) = generate_array_schema a := by
  simp [generate_json_schema, generate_array_schema]

/-! Lemmas about the association-list map operations. -/

theorem mapGet_mapInsert (k k' : String) (v : Json) (m : List (String × Json)) :
    mapGet (mapInsert k v m) k' = if k' = k then some v else mapGet m k' := by
  induction m with
  | nil =>
    by_cases h : k' = k
    · subst h; simp [mapInsert, mapGet]
    · simp [mapInsert, mapGet, h, Ne.symm h]
  | cons hd tl ih =>
    obtain ⟨k0, v0⟩ := hd
    by_cases h1 : strLt k k0 = true
    · by_cases h : k' = k
      · subst h; simp [mapInsert, h1, mapGet]
      · simp [mapInsert, h1, mapGet, h, Ne.symm h]
    · by_cases h2 : k = k0
      · subst h2
        by_cases h : k' = k
        · subst h; simp [mapInsert, h1, mapGet]
        · simp [mapInsert, h1, mapGet, h, Ne.symm h]
      · by_cases h3 : k0 = k'
        · subst h3
          have h4 : ¬ k0 = k := fun hh => h2 hh.symm
          simp [mapInsert, h1, h2, mapGet, h4, ih]
        · simp [mapInsert, h1, h2, mapGet, h3, ih]

theorem mapGet_append (l1 l2 : List (String × Json)) (k : String) :
    mapGet (l1 ++ l2) k = (mapGet l1 k).orElse (fun _ => mapGet l2 k) := by
  induction l1 with
  | nil => simp [mapGet, Option.orElse]
  | cons hd tl ih =>
    obtain ⟨k0, v0⟩ := hd
    by_cases h : k0 = k <;> simp [mapGet, h, ih, Option.orElse]

theorem mapGet_eq_none_iff (l : List (String × Json)) (k : String) :
    mapGet l k = none ↔ k ∉ l.map Prod.fst := by
  induction l with
  | nil => simp [mapGet]
  | cons hd tl ih =>
    obtain ⟨k0, v0⟩ := hd
    by_cases h : k0 = k
    · subst h; simp [mapGet]
    · have h' : ¬ k = k0 := fun hh => h hh.symm
      simp [mapGet, h, h', ih]

theorem mapGet_isSome_iff (l : List (String × Json)) (k : String) :
    (mapGet l k).isSome = true ↔ k ∈ l.map Prod.fst := by
  rw [← Decidable.not_iff_not, ← mapGet_eq_none_iff]
  cases mapGet l k <;> simp

theorem mapGet_reverse (l : List (String × Json)) (k : String)
    (h : (l.map Prod.fst).Nodup) : mapGet l.reverse k = mapGet l k := by
  induction l with
  | nil => rfl
  | cons hd tl ih =>
    obtain ⟨k0, v0⟩ := hd
    simp only [List.map_cons, List.nodup_cons] at h
    rw [List.reverse_cons, mapGet_append]
    by_cases hk : k0 = k
    · subst hk
      have : mapGet tl.reverse k0 = none := by
        rw [mapGet_eq_none_iff]
        simpa using h.1
      simp [this, mapGet, Option.orElse]
    · rw [ih h.2]
      cases hmm : mapGet tl k <;> simp [mapGet, hk, hmm, Option.orElse]

theorem mapGet_foldl_insert (l : List (String × Json)) (m : List (String × Json)) (k : String) :
    mapGet (l.foldl (fun acc kv => mapInsert kv.1 kv.2 acc) m) k
      = (mapGet l.reverse k).orElse (fun _ => mapGet m k) := by
  induction l generalizing m with
  | nil => simp [mapGet, Option.orElse]
  | cons hd tl ih =>
    obtain ⟨k0, v0⟩ := hd
    rw [List.foldl_cons, ih, List.reverse_cons, mapGet_append, mapGet_mapInsert]
    cases hmm : mapGet tl.reverse k
    · by_cases h : k = k0
      · subst h; simp [mapGet, Option.orElse]
      · have h' : ¬ k0 = k := fun hh => h hh.symm
        simp [mapGet, h, h', Option.orElse]
    · simp [Option.orElse]

theorem mapGet_mergeProps (p1 p2 : List (String × Json)) (k : String)
    (h1 : (p1.map Prod.fst).Nodup) (h2 : (p2.map Prod.fst).Nodup) :
    mapGet (mergeProps p1 p2) k = (mapGet p2 k).orElse (fun _ => mapGet p1 k) := by
  unfold mergeProps
  rw [mapGet_foldl_insert, List.reverse_append, mapGet_append,
    mapGet_reverse _ _ h1, mapGet_reverse _ _ h2]
  cases mapGet p2 k <;> cases mapGet p1 k <;> simp [mapGet, Option.orElse]

/-- The fields assembled by `assembleObjectSchema`, read back by key. -/
theorem assembleObjectSchema_spec (refv : Option Json) (props : List (String × Json))
    (required : List Json) :
    ∃ fsa, assembleObjectSchema refv props required = .obj fsa ∧
      mapGet fsa "type" = some (.str "object") ∧
      mapGet fsa "properties" = some (.obj props) ∧
      mapGet fsa "required" = some (.arr required) ∧
      mapGet fsa "$schema" = some draft07 ∧
      mapGet fsa "$ref" = refv ∧
      mapGet fsa "oneOf" = none := by
  cases refv <;> exact ⟨_, rfl, by simp [mapGet], by simp [mapGet], by simp [mapGet],
    by simp [mapGet], by simp [mapGet], by simp [mapGet]⟩

/-! Invariants of generated schema nodes, and totality. -/

theorem propsOk_oneOf (a b : Json) : PropsOk (.obj [("oneOf", .arr [a, b])]) := by
  intro p hp
  simp [mapGet] at hp

theorem propsOk_typeOnly (t : Json) : PropsOk (.obj [("type", t)]) := by
  intro p hp
  simp [mapGet] at hp

theorem propsOk_typeProps (t : Json) (P : List (String × Json)) :
    PropsOk (.obj [("properties", .obj P), ("type", t)]) := by
  intro p hp
  simp [mapGet] at hp
  exact ⟨P, hp.symm⟩

theorem goodSchema_mkType (t : String) : GoodSchema (mkType t) := by
  constructor
  · simp [HasTypeKey, mkType, mapGet]
  · intro p hp
    simp [mkType, mapGet] at hp

theorem goodSchema_itemsType (c : Json) :
    GoodSchema (.obj [("items", c), ("type", .str "array")]) := by
  constructor
  · simp [HasTypeKey, mapGet]
  · intro p hp
    simp [mapGet] at hp

/-! Branch-by-branch reduction lemmas for `merge_schemas`. -/

theorem merge_schemas_eq_self (s1 s2 : Json) (heq : s1 = s2) :
    merge_schemas s1 s2 = some s1 := by
  unfold merge_schemas
  rw [if_pos heq]

theorem merge_schemas_not_both_obj (s1 s2 : Json) (hne : s1 ≠ s2)
    (h : s1.as_object = none ∨ s2.as_object = none) :
    merge_schemas s1 s2 = some (.obj [("oneOf", .arr [s1, s2])]) := by
  unfold merge_schemas
  rw [if_neg hne]
  cases s1 <;> cases s2 <;> simp_all [Json.as_object]

theorem merge_schemas_diff_type (o1 o2 : List (String × Json))
    (hne : Json.obj o1 ≠ Json.obj o2) (ht : mapGet o1 "type" ≠ mapGet o2 "type") :
    merge_schemas (.obj o1) (.obj o2)
      = some (.obj [("oneOf", .arr [.obj o1, .obj o2])]) := by
  unfold merge_schemas
  rw [if_neg hne]
  simp [ht]

theorem merge_schemas_same_type_no_props (o1 o2 : List (String × Json)) (t : Json)
    (hne : Json.obj o1 ≠ Json.obj o2)
    (ht1 : mapGet o1 "type" = some t) (ht2 : mapGet o2 "type" = some t)
    (h : mapGet o1 "properties" = none ∨ mapGet o2 "properties" = none) :
    merge_schemas (.obj o1) (.obj o2) = some (.obj [("type", t)]) := by
  unfold merge_schemas
  rw [if_neg hne]
  rcases h with h | h <;> simp [ht1, ht2, h]

theorem merge_schemas_same_type_props (o1 o2 : List (String × Json)) (t : Json)
    (ps1 ps2 : List (String × Json))
    (hne : Json.obj o1 ≠ Json.obj o2)
    (ht1 : mapGet o1 "type" = some t) (ht2 : mapGet o2 "type" = some t)
    (hp1 : mapGet o1 "properties" = some (.obj ps1))
    (hp2 : mapGet o2 "properties" = some (.obj ps2)) :
    merge_schemas (.obj o1) (.obj o2)
      = some (.obj [("properties", .obj (mergeProps ps1 ps2)), ("type", t)]) := by
  unfold merge_schemas
  rw [if_neg hne]
  simp [ht1, ht2, hp1, hp2, Json.as_object]

/-- `merge_schemas` succeeds, and preserves the `properties` invariant,
    whenever its left operand satisfies that invariant and its right
    operand is a generated schema node. -/
theorem merge_schemas_some (s1 s2 : Json) (hp1 : PropsOk s1) (hg2 : GoodSchema s2) :
    ∃ m, merge_schemas s1 s2 = some m ∧ PropsOk m := by
  by_cases heq : s1 = s2
  · exact ⟨s1, merge_schemas_eq_self s1 s2 heq, hp1⟩
  · have hobj2 : ∃ o2, s2 = Json.obj o2 := by
      cases s2 <;>
        first
          | exact ⟨_, rfl⟩
          | exact absurd hg2.1 (by simp [HasTypeKey])
    obtain ⟨o2, rfl⟩ := hobj2
    cases s1 with
    | obj o1 =>
      by_cases ht : mapGet o1 "type" = mapGet o2 "type"
      · obtain ⟨t2, ht2⟩ := Option.isSome_iff_exists.mp hg2.1
        rw [ht2] at ht
        by_cases hb1 : (mapGet o1 "properties").isSome = true
        · by_cases hb2 : (mapGet o2 "properties").isSome = true
          · obtain ⟨p1, hp1'⟩ := Option.isSome_iff_exists.mp hb1
            obtain ⟨p2, hp2'⟩ := Option.isSome_iff_exists.mp hb2
            obtain ⟨ps1, rfl⟩ := hp1 p1 hp1'
            obtain ⟨ps2, rfl⟩ := hg2.2 p2 hp2'
            exact ⟨_, merge_schemas_same_type_props o1 o2 t2 ps1 ps2 heq ht ht2 hp1' hp2',
              propsOk_typeProps t2 (mergeProps ps1 ps2)⟩
          · have h2 : mapGet o2 "properties" = none := by
              cases hmm : mapGet o2 "properties" <;> simp_all
            exact ⟨_, merge_schemas_same_type_no_props o1 o2 t2 heq ht ht2 (Or.inr h2),
              propsOk_typeOnly t2⟩
        · have h1 : mapGet o1 "properties" = none := by
            cases hmm : mapGet o1 "properties" <;> simp_all
          exact ⟨_, merge_schemas_same_type_no_props o1 o2 t2 heq ht ht2 (Or.inl h1),
            propsOk_typeOnly t2⟩
      · exact ⟨_, merge_schemas_diff_type o1 o2 heq ht, propsOk_oneOf _ _⟩
    | null => exact ⟨_, merge_schemas_not_both_obj _ _ heq (Or.inl rfl), propsOk_oneOf _ _⟩
    | bool b => exact ⟨_, merge_schemas_not_both_obj _ _ heq (Or.inl rfl), propsOk_oneOf _ _⟩
    | num n => exact ⟨_, merge_schemas_not_both_obj _ _ heq (Or.inl rfl), propsOk_oneOf _ _⟩
    | str s => exact ⟨_, merge_schemas_not_both_obj _ _ heq (Or.inl rfl), propsOk_oneOf _ _⟩
    | arr a => exact ⟨_, merge_schemas_not_both_obj _ _ heq (Or.inl rfl), propsOk_oneOf _ _⟩

theorem foldlM_merge_some (rest : List Json) :
    ∀ common, PropsOk common → (∀ x ∈ rest, GoodSchema x) →
    ∃ m, List.foldlM (fun c s => merge_schemas c s) common rest = some m ∧ PropsOk m := by
  induction rest with
  | nil => exact fun c hc _ => ⟨c, rfl, hc⟩
  | cons s rest ih =>
    intro c hc hall
    obtain ⟨m, hm, hmp⟩ := merge_schemas_some c s hc (hall s (by simp))
    obtain ⟨m', hm', hmp'⟩ := ih m hmp (fun x hx => hall x (by simp [hx]))
    exact ⟨m', by simp [hm, hm'], hmp'⟩

/-! Order facts about the string comparison used by the sort. -/

theorem charListLt_trans : ∀ {a b c : List Char},
    charListLt a b = true → charListLt b c = true → charListLt a c = true := by
  intro a
  induction a with
  | nil =>
    intro b c h1 h2
    cases b with
    | nil => exact absurd h1 (by simp [charListLt])
    | cons b0 bs =>
      cases c with
      | nil => exact absurd h2 (by simp [charListLt])
      | cons c0 cs => rfl
  | cons a0 as ih =>
    intro b c h1 h2
    cases b with
    | nil => exact absurd h1 (by simp [charListLt])
    | cons b0 bs =>
      cases c with
      | nil => exact absurd h2 (by simp [charListLt])
      | cons c0 cs =>
        simp only [charListLt] at h1 h2 ⊢
        by_cases hab : a0 < b0
        · by_cases hbc : b0 < c0
          · simp [lt_trans hab hbc]
          · by_cases hcb : c0 < b0
            · simp [hbc, hcb] at h2
            · have : b0 = c0 := le_antisymm (not_lt.mp hcb) (not_lt.mp hbc)
              subst this
              simp [hab]
        · by_cases hba : b0 < a0
          · simp [hab, hba] at h1
          · have hab' : a0 = b0 := le_antisymm (not_lt.mp hba) (not_lt.mp hab)
            subst hab'
            simp [hab] at h1
            by_cases hac : a0 < c0
            · simp [hac]
            · by_cases hca : c0 < a0
              · simp [hac, hca] at h2
              · simp [hac, hca] at h2 ⊢
                exact ih h1 h2

theorem charListLt_conn : ∀ {a b : List Char},
    charListLt a b = false → charListLt b a = false → a = b := by
  intro a
  induction a with
  | nil =>
    intro b h1 _
    cases b with
    | nil => rfl
    | cons b0 bs => simp [charListLt] at h1
  | cons a0 as ih =>
    intro b h1 h2
    cases b with
    | nil => simp [charListLt] at h2
    | cons b0 bs =>
      simp only [charListLt] at h1 h2
      by_cases hab : a0 < b0
      · simp [hab] at h1
      · by_cases hba : b0 < a0
        · simp [hab, hba] at h2
        · have : a0 = b0 := le_antisymm (not_lt.mp hba) (not_lt.mp hab)
          subst this
          simp [hab] at h1 h2
          rw [ih h1 h2]

theorem strLt_trans {a b c : String} (h1 : strLt a b = true) (h2 : strLt b c = true) :
    strLt a c = true := charListLt_trans h1 h2

theorem strLt_conn {a b : String} (h1 : strLt a b = false) (h2 : strLt b a = false) :
    a = b := String.ext (charListLt_conn h1 h2)

instance : IsTrans String StrLeP := by
  constructor
  intro a b c h1 h2
  simp only [StrLeP, strLe, Bool.or_eq_true, beq_iff_eq] at h1 h2 ⊢
  rcases h1 with h1 | h1
  · rcases h2 with h2 | h2
    · exact Or.inl (strLt_trans h1 h2)
    · subst h2; exact Or.inl h1
  · subst h1; exact h2

instance : IsTotal String StrLeP := by
  constructor
  intro a b
  simp only [StrLeP, strLe, Bool.or_eq_true, beq_iff_eq]
  cases hab : strLt a b
  · cases hba : strLt b a
    · exact Or.inl (Or.inr (strLt_conn hab hba))
    · exact Or.inr (Or.inl rfl)
  · exact Or.inl (Or.inl rfl)

theorem strLeP_ne_strLt {a b : String} (h1 : StrLeP a b) (h2 : a ≠ b) : strLt a b = true := by
  simp only [StrLeP, strLe, Bool.or_eq_true, beq_iff_eq] at h1
  exact h1.resolve_right h2

/-! The object loop: `$ref` passthrough, `properties`, `required`. -/

theorem mem_nonRefKeys (fields : List (String × Json)) (k : String) :
    k ∈ nonRefKeys fields ↔ k ∈ fields.map Prod.fst ∧ k ≠ "$ref" := by
  induction fields with
  | nil => simp [nonRefKeys]
  | cons kv rest ih =>
    obtain ⟨key, v⟩ := kv
    by_cases hkey : key = "$ref"
    · subst hkey
      simp [nonRefKeys, ih]
      tauto
    · simp [nonRefKeys, hkey, ih]
      constructor
      · rintro (rfl | ⟨h1, h2⟩)
        · exact ⟨Or.inl rfl, hkey⟩
        · exact ⟨Or.inr h1, h2⟩
      · rintro ⟨rfl | h1, h2⟩
        · exact Or.inl rfl
        · exact Or.inr ⟨h1, h2⟩

theorem nonRefKeys_sublist (fields : List (String × Json)) :
    (nonRefKeys fields).Sublist (fields.map Prod.fst) := by
  induction fields with
  | nil => simp [nonRefKeys]
  | cons kv rest ih =>
    obtain ⟨key, v⟩ := kv
    by_cases hkey : key = "$ref"
    · simp only [nonRefKeys, if_pos hkey, List.map_cons]
      exact ih.cons key
    · simp only [nonRefKeys, if_neg hkey, List.map_cons]
      exact ih.cons₂ key

theorem objectLoop_spec (fields : List (String × Json)) :
    ∀ refv props required,
    (∀ kv ∈ fields, (generate_json_schema kv.2).isSome = true) →
    ∃ props', objectLoop fields refv props required
        = some (lastRefVal fields refv, props', required ++ (nonRefKeys fields).map Json.str) ∧
      ∀ k, k ∉ nonRefKeys fields → mapGet props' k = mapGet props k := by
  induction fields with
  | nil =>
    intro refv props required _
    exact ⟨props, by simp [objectLoop, lastRefVal, nonRefKeys], fun k _ => rfl⟩
  | cons kv rest ih =>
    obtain ⟨key, value⟩ := kv
    intro refv props required H
    by_cases hkey : key = "$ref"
    · subst hkey
      obtain ⟨props', hloop, hchar⟩ :=
        ih (some value) props required (fun kv hkv => H kv (by simp [hkv]))
      refine ⟨props', ?_, ?_⟩
      · simp [objectLoop, hloop, lastRefVal, nonRefKeys]
      · intro k hk
        refine hchar k ?_
        simpa [nonRefKeys] using hk
    · have hv := H (key, value) (by simp)
      obtain ⟨sub, hsub⟩ := Option.isSome_iff_exists.mp hv
      obtain ⟨props', hloop, hchar⟩ :=
        ih refv (mapInsert key (removeSchemaKey sub) props) (required ++ [Json.str key])
          (fun kv hkv => H kv (by simp [hkv]))
      refine ⟨props', ?_, ?_⟩
      · simp [objectLoop, hkey, hsub, hloop, lastRefVal, nonRefKeys]
      · intro k hk
        rw [nonRefKeys, if_neg hkey] at hk
        simp only [List.mem_cons, not_or] at hk
        rw [hchar k hk.2, mapGet_mapInsert]
        simp [hk.1]

theorem mapAsStrs_map (l : List String) :
    mapAsStrs (l.map Json.str) = some l := by
  induction l with
  | nil => rfl
  | cons a l ih => simp [mapAsStrs, Json.as_str, ih]

theorem sortRequired_strs (l : List String) :
    sortRequired (l.map Json.str) = some ((l.insertionSort StrLeP).map Json.str) := by
  simp [sortRequired, mapAsStrs_map]

theorem mapGenSchemas_some (es : List Json)
    (H : ∀ e ∈ es, ∃ s, generate_json_schema e = some s ∧ GoodSchema s) :
    ∃ ss, mapGenSchemas es = some ss ∧ ss.length = es.length ∧ ∀ x ∈ ss, GoodSchema x := by
  induction es with
  | nil => exact ⟨[], rfl, rfl, by simp⟩
  | cons e es ih =>
    obtain ⟨s, hs, hgs⟩ := H e (by simp)
    obtain ⟨ss, hss, hlen, hall⟩ := ih (fun x hx => H x (by simp [hx]))
    refine ⟨s :: ss, by simp [mapGenSchemas, hs, hss], by simp [hlen], ?_⟩
    intro x hx
    rcases List.mem_cons.mp hx with h | h
    · subst h; exact hgs
    · exact hall x h

/-- Totality with the generated-node invariant: every JSON instance
    yields a schema, and that schema is an object with a `type` key whose
    `properties` entry, if present, holds an object. -/
theorem gen_total_good : ∀ j, ∃ s, generate_json_schema j = some s ∧ GoodSchema s := by
  intro j
  induction j using Json.recAux with
  | hnull => exact ⟨_, rfl, goodSchema_mkType _⟩
  | hbool b => exact ⟨_, rfl, goodSchema_mkType _⟩
  | hnum n => exact ⟨_, rfl, goodSchema_mkType _⟩
  | hstr s => exact ⟨_, rfl, goodSchema_mkType _⟩
  | harr es ihe =>
    by_cases he : es.isEmpty
    · refine ⟨.obj [("items", .obj []), ("type", .str "array")], ?_,
        goodSchema_itemsType (.obj [])⟩
      simp [generate_json_schema, he]
    · obtain ⟨ss, hss, hlen, hall⟩ := mapGenSchemas_some es ihe
      cases ss with
      | nil =>
        exfalso
        cases es with
        | nil => simp at he
        | cons e es' => simp at hlen
      | cons s0 ss' =>
        have hg0 := hall s0 (by simp)
        obtain ⟨common, hcommon, hcp⟩ :=
          foldlM_merge_some ss' s0 hg0.2 (fun x hx => hall x (by simp [hx]))
        refine ⟨.obj [("items", common), ("type", .str "array")], ?_,
          goodSchema_itemsType common⟩
        simp [generate_json_schema, he, hss, find_common_schema, hcommon]
  | hobj fs ihf =>
    have H : ∀ kv ∈ fs, (generate_json_schema kv.2).isSome = true := by
      intro kv hkv
      obtain ⟨s, hs, _⟩ := ihf kv hkv
      simp [hs]
    obtain ⟨props', hloop, _⟩ := objectLoop_spec fs none [] [] H
    obtain ⟨fsa, hasm, htype, hprops, hreq, hsch, href, honeOf⟩ := assembleObjectSchema_spec
      (lastRefVal fs none) props' (((nonRefKeys fs).insertionSort StrLeP).map Json.str)
    refine ⟨assembleObjectSchema (lastRefVal fs none) props'
      (((nonRefKeys fs).insertionSort StrLeP).map Json.str), ?_, ?_⟩
    · simp [generate_json_schema, hloop, sortRequired_strs]
    · rw [hasm]
      constructor
      · simp [HasTypeKey, htype]
      · intro p hp
        rw [hprops] at hp
        exact ⟨props', (Option.some.inj hp).symm⟩

/-! Helper facts for the `$ref` passthrough and the merge hypotheses. -/

theorem lastRefVal_no_ref : ∀ (fields : List (String × Json)) (refv : Option Json),
    "$ref" ∉ fields.map Prod.fst → lastRefVal fields refv = refv := by
  intro fields
  induction fields with
  | nil => intro refv _; rfl
  | cons kv rest ih =>
    intro refv h
    obtain ⟨key, w⟩ := kv
    simp only [List.map_cons, List.mem_cons, not_or] at h
    have hkey : ¬ key = "$ref" := fun hh => h.1 hh.symm
    simp only [lastRefVal, List.foldl_cons, if_neg hkey]
    exact ih refv h.2

theorem lastRefVal_of_mem : ∀ (fields : List (String × Json)) (v : Json) (refv : Option Json),
    (fields.map Prod.fst).Nodup → ("$ref", v) ∈ fields → lastRefVal fields refv = some v := by
  intro fields
  induction fields with
  | nil => intro v refv _ hmem; cases hmem
  | cons kv rest ih =>
    intro v refv hnd hmem
    obtain ⟨key, w⟩ := kv
    simp only [List.map_cons, List.nodup_cons] at hnd
    rcases List.mem_cons.mp hmem with heq | hmem'
    · injection heq with hk hv
      subst hk
      subst hv
      simp only [lastRefVal, List.foldl_cons, if_pos rfl]
      exact lastRefVal_no_ref rest (some v) hnd.1
    · have hkey : ¬ key = "$ref" := by
        intro hh
        subst hh
        exact hnd.1 (List.mem_map.mpr ⟨("$ref", v), hmem', rfl⟩)
      simp only [lastRefVal, List.foldl_cons, if_neg hkey]
      exact ih v refv hnd.2 hmem'

theorem propsEntryIsObj_spec (fs : List (String × Json)) (h : propsEntryIsObj fs = true)
    (p : Json) (hp : mapGet fs "properties" = some p) : ∃ q, p = .obj q := by
  unfold propsEntryIsObj at h
  rw [hp] at h
  cases p with
  | obj q => exact ⟨q, rfl⟩
  | null => simp at h
  | bool b => simp at h
  | num n => simp at h
  | str s => simp at h
  | arr a => simp at h

/-! The claims. -/

/-- Claim C1 (code bug): the spec requires the dialect marker
    `$schema` to be absent from every nested object schema, including
    object schemas inside array items, and the code's own comment says
    "Add $schema only to the top-level object"; but object schemas
    generated for array elements keep the marker. At the instance `[{}]`
    the `items` schema carries `$schema`. -/
theorem c1_dialect_marker_leaks_into_array_items :
    generate_json_schema (.arr [.obj []])
      = some (.obj [("items", .obj [("$schema", draft07), ("properties", .obj []),
          ("required", .arr []), ("type", .str "object")]), ("type", .str "array")]) ∧
    mapGet [("$schema", draft07), ("properties", .obj []), ("required", .arr []),
        ("type", .str "object")] "$schema" = some draft07 := by
  constructor
  · decide
  · decide

/-- Claim C2: `generate_json_schema` is total — on every JSON value it
    returns a schema, and none of the partial operations embedded as
    `none` (the `obj1["type"]` map indexing and the
    `as_object`/`as_str` unwraps) is ever hit in a failing state. -/
theorem c2_generate_json_schema_total (j : Json) :
    (generate_json_schema j).isSome = true := by
  obtain ⟨s, hs, _⟩ := gen_total_good j
  simp [hs]

/-- Claim C6: array unification is the left fold of `merge_schemas` over
    the element schemas, so `[a, b, c]` merges as `merge(merge(a,b),c)`;
    on the instance `[1, "two", 3.0]` this yields the left-nested
    two-way `oneOf` tree, not a flat three-way `oneOf`. -/
theorem c6_left_fold_oneOf_nesting :
    (∀ (first : Json) (rest : List Json), find_common_schema (first :: rest)
        = List.foldlM (fun common s => merge_schemas common s) first rest) ∧
    (∀ a b c : Json, find_common_schema [a, b, c]
        = (merge_schemas a b) >>= fun m => merge_schemas m c) ∧
    generate_json_schema (.arr [.num (.posInt 1), .str "two", .num (.float 3)])
      = some (.obj [("items", .obj [("oneOf", .arr [.obj [("oneOf",
          .arr [mkType "integer", mkType "string"])], mkType "number"])]),
          ("type", .str "array")]) := by
  refine ⟨fun first rest => rfl, fun a b c => ?_, by decide⟩
  simp only [find_common_schema, List.foldlM_cons, List.foldlM_nil]
  cases merge_schemas a b <;> simp

/-- Claim C7: merging two structurally identical schemas returns that
    schema: `merge_schemas` is idempotent. Under serde_json's default
    `BTreeMap` representation maps are held in canonical key order, so
    deep equality up to key order is structural equality here. -/
theorem c7_merge_idempotent (s : Json) : merge_schemas s s = some s :=
  merge_schemas_eq_self s s rfl

/-- Claim C9: the empty array instance yields exactly
    `{type: "array", items: {}}`. -/
theorem c9_empty_array_schema :
    generate_json_schema (.arr [])
      = some (.obj [("items", .obj []), ("type", .str "array")]) := by
  decide

/-- Claim C10: every schema returned by `generate_json_schema` is an
    object with a top-level `type` key; a `oneOf` node without `type`
    can only appear nested inside `items`, so in the array fold the
    right-hand merge operand always has a `type` key and the
    both-operands-lack-`type` branch (the panicking `obj1["type"]`)
    is unreachable from the public interface. -/
theorem c10_top_level_schema_has_type (j : Json) :
    ∃ fs t, generate_json_schema j = some (.obj fs) ∧ mapGet fs "type" = some t := by
  obtain ⟨s, hs, hg⟩ := gen_total_good j
  cases s with
  | obj fs =>
    obtain ⟨t, ht⟩ := Option.isSome_iff_exists.mp hg.1
    exact ⟨fs, t, hs, ht⟩
  | null => exact absurd hg.1 (by simp [HasTypeKey])
  | bool b => exact absurd hg.1 (by simp [HasTypeKey])
  | num n => exact absurd hg.1 (by simp [HasTypeKey])
  | str s => exact absurd hg.1 (by simp [HasTypeKey])
  | arr a => exact absurd hg.1 (by simp [HasTypeKey])

/-- Claim C3: an instance key literally named `$ref` has its value
    copied verbatim into the schema node's `$ref` key, contributes no
    inferred sub-schema, and appears neither among the `properties`
    keys nor in the `required` array. The no-duplicate-keys hypothesis
    holds of every serde_json object. -/
theorem c3_ref_passthrough (fields : List (String × Json)) (v : Json)
    (hnd : (fields.map Prod.fst).Nodup) (hmem : ("$ref", v) ∈ fields) :
    ∃ sf props reqd, generate_json_schema (.obj fields) = some (.obj sf) ∧
      mapGet sf "$ref" = some v ∧
      mapGet sf "properties" = some (.obj props) ∧
      mapGet props "$ref" = none ∧
      mapGet sf "required" = some (.arr reqd) ∧
      Json.str "$ref" ∉ reqd := by
  have H : ∀ kv ∈ fields, (generate_json_schema kv.2).isSome = true := by
    intro kv _
    obtain ⟨s, hs, _⟩ := gen_total_good kv.2
    simp [hs]
  obtain ⟨props', hloop, hchar⟩ := objectLoop_spec fields none [] [] H
  obtain ⟨fsa, hasm, htype, hprops, hreq, hsch, href, honeOf⟩ := assembleObjectSchema_spec
    (lastRefVal fields none) props' (((nonRefKeys fields).insertionSort StrLeP).map Json.str)
  refine ⟨fsa, props', ((nonRefKeys fields).insertionSort StrLeP).map Json.str,
    ?_, ?_, hprops, ?_, hreq, ?_⟩
  · rw [← hasm]
    simp [generate_json_schema, hloop, sortRequired_strs]
  · rw [href]
    exact lastRefVal_of_mem fields v none hnd hmem
  · rw [hchar "$ref" (by simp [mem_nonRefKeys])]
    rfl
  · intro hmem'
    obtain ⟨x, hx, hxe⟩ := List.mem_map.mp hmem'
    have hxr : x = "$ref" := by injection hxe
    subst hxr
    have hin : "$ref" ∈ nonRefKeys fields :=
      (List.perm_insertionSort StrLeP _).mem_iff.mp hx
    rw [mem_nonRefKeys] at hin
    exact hin.2 rfl

/-- Witness for C3 at the instance `{"$ref": "#/defs/a", "b": null}`. -/
theorem c3_ref_passthrough_witness :
    (((([("$ref", Json.str "#/defs/a"), ("b", Json.null)] : List (String × Json)).map
        Prod.fst).Nodup) ∧
      ("$ref", Json.str "#/defs/a") ∈
        [("$ref", Json.str "#/defs/a"), ("b", Json.null)]) ∧
    (∃ sf props reqd,
      generate_json_schema (.obj [("$ref", Json.str "#/defs/a"), ("b", Json.null)])
          = some (.obj sf) ∧
        mapGet sf "$ref" = some (Json.str "#/defs/a") ∧
        mapGet sf "properties" = some (.obj props) ∧
        mapGet props "$ref" = none ∧
        mapGet sf "required" = some (.arr reqd) ∧
        Json.str "$ref" ∉ reqd) :=
  ⟨⟨by decide, by decide⟩, c3_ref_passthrough _ _ (by decide) (by decide)⟩

/-- Claim C4: the `required` array of an inferred object schema lists
    exactly the instance's non-`$ref` keys, each once, in strictly
    ascending string (byte/code-point) order. The no-duplicate-keys
    hypothesis holds of every serde_json object. -/
theorem c4_required_sorted_exact (fields : List (String × Json))
    (hnd : (fields.map Prod.fst).Nodup) :
    ∃ sf l, generate_json_schema (.obj fields) = some (.obj sf) ∧
      mapGet sf "required" = some (.arr (l.map Json.str)) ∧
      List.Pairwise (fun a b => strLt a b = true) l ∧
      (∀ k, k ∈ l ↔ (k ∈ fields.map Prod.fst ∧ k ≠ "$ref")) := by
  have H : ∀ kv ∈ fields, (generate_json_schema kv.2).isSome = true := by
    intro kv _
    obtain ⟨s, hs, _⟩ := gen_total_good kv.2
    simp [hs]
  obtain ⟨props', hloop, hchar⟩ := objectLoop_spec fields none [] [] H
  obtain ⟨fsa, hasm, htype, hprops, hreq, hsch, href, honeOf⟩ := assembleObjectSchema_spec
    (lastRefVal fields none) props' (((nonRefKeys fields).insertionSort StrLeP).map Json.str)
  refine ⟨fsa, (nonRefKeys fields).insertionSort StrLeP, ?_, hreq, ?_, ?_⟩
  · rw [← hasm]
    simp [generate_json_schema, hloop, sortRequired_strs]
  · have hsorted : List.Pairwise StrLeP ((nonRefKeys fields).insertionSort StrLeP) :=
      List.sorted_insertionSort StrLeP _
    have hndk : (nonRefKeys fields).Nodup := (nonRefKeys_sublist fields).nodup hnd
    have hnd2 : ((nonRefKeys fields).insertionSort StrLeP).Nodup :=
      (List.perm_insertionSort StrLeP _).symm.nodup hndk
    exact List.Pairwise.imp₂ (fun a b hab hne => strLeP_ne_strLt hab hne) hsorted hnd2
  · intro k
    rw [(List.perm_insertionSort StrLeP (nonRefKeys fields)).mem_iff, mem_nonRefKeys]

/-- Witness for C4 at the instance `{"b": null, "a": null}`. -/
theorem c4_required_sorted_exact_witness :
    ((([("b", Json.null), ("a", Json.null)] : List (String × Json)).map Prod.fst).Nodup) ∧
    (∃ sf l, generate_json_schema (.obj [("b", Json.null), ("a", Json.null)])
        = some (.obj sf) ∧
      mapGet sf "required" = some (.arr (l.map Json.str)) ∧
      List.Pairwise (fun a b => strLt a b = true) l ∧
      (∀ k, k ∈ l ↔ (k ∈ ([("b", Json.null), ("a", Json.null)] :
        List (String × Json)).map Prod.fst ∧ k ≠ "$ref"))) :=
  ⟨by decide, c4_required_sorted_exact _ (by decide)⟩

/-- Claim C5, counterexample: the claim as stated quantifies over every
    pair of object schemas with an identical `type` field, which includes
    structurally equal pairs; but for `s1 = s2` the equality check fires
    first and returns `s1` verbatim, so with
    `s = {"required": [], "type": "object"}` the merge result carries a
    `required` field, contradicting the claimed `{type: s1.type}` shape
    and the claimed absence of `required`. -/
theorem c5_identical_pair_counterexample :
    merge_schemas (.obj [("required", .arr []), ("type", .str "object")])
        (.obj [("required", .arr []), ("type", .str "object")])
      = some (.obj [("required", .arr []), ("type", .str "object")]) ∧
    mapGet [("required", .arr []), ("type", .str "object")] "required" ≠ none := by
  constructor
  · decide
  · decide

/-- Claim C5, amended with the distinctness guard the code's first check
    imposes: for structurally distinct object schemas with the same
    (present) `type` value `t`, and `properties` entries that are objects
    when present, the merge returns a node with `type = t`, no
    `required`, `properties` present iff both operands have it, and in
    that case a map holding all of `s1`'s then all of `s2`'s entries
    with `s2` winning on key collisions — the property values copied
    verbatim, with no recursion into sub-schemas. -/
theorem c5_merge_same_type_distinct (fs1 fs2 : List (String × Json)) (t : Json)
    (hne : Json.obj fs1 ≠ Json.obj fs2)
    (ht1 : mapGet fs1 "type" = some t) (ht2 : mapGet fs2 "type" = some t)
    (hp1 : propsEntryIsObj fs1 = true) (hp2 : propsEntryIsObj fs2 = true) :
    ∃ mfs, merge_schemas (.obj fs1) (.obj fs2) = some (.obj mfs) ∧
      mapGet mfs "type" = some t ∧
      mapGet mfs "required" = none ∧
      (((mapGet fs1 "properties").isSome = true ∧ (mapGet fs2 "properties").isSome = true)
        ↔ (mapGet mfs "properties").isSome = true) ∧
      (∀ q1 q2, mapGet fs1 "properties" = some (.obj q1) →
          mapGet fs2 "properties" = some (.obj q2) →
          (q1.map Prod.fst).Nodup → (q2.map Prod.fst).Nodup →
          ∃ P, mapGet mfs "properties" = some (.obj P) ∧
            ∀ k, mapGet P k = (mapGet q2 k).orElse (fun _ => mapGet q1 k)) := by
  by_cases hb1 : (mapGet fs1 "properties").isSome = true
  · by_cases hb2 : (mapGet fs2 "properties").isSome = true
    · obtain ⟨p1, hp1'⟩ := Option.isSome_iff_exists.mp hb1
      obtain ⟨p2, hp2'⟩ := Option.isSome_iff_exists.mp hb2
      obtain ⟨q1, rfl⟩ := propsEntryIsObj_spec fs1 hp1 p1 hp1'
      obtain ⟨q2, rfl⟩ := propsEntryIsObj_spec fs2 hp2 p2 hp2'
      refine ⟨[("properties", .obj (mergeProps q1 q2)), ("type", t)],
        merge_schemas_same_type_props fs1 fs2 t q1 q2 hne ht1 ht2 hp1' hp2',
        by simp [mapGet], by simp [mapGet], ?_, ?_⟩
      · constructor
        · intro _
          simp [mapGet]
        · intro _
          exact ⟨hb1, hb2⟩
      · intro q1' q2' h1' h2' hnd1 hnd2
        rw [hp1'] at h1'
        rw [hp2'] at h2'
        have e1 : q1 = q1' := by injection Option.some.inj h1'
        have e2 : q2 = q2' := by injection Option.some.inj h2'
        subst e1
        subst e2
        exact ⟨mergeProps q1 q2, by simp [mapGet],
          fun k => mapGet_mergeProps q1 q2 k hnd1 hnd2⟩
    · have h2n : mapGet fs2 "properties" = none := by
        cases hm : mapGet fs2 "properties" <;> simp_all
      refine ⟨[("type", t)],
        merge_schemas_same_type_no_props fs1 fs2 t hne ht1 ht2 (Or.inr h2n),
        by simp [mapGet], by simp [mapGet], ?_, ?_⟩
      · constructor
        · rintro ⟨_, hb2'⟩
          exact absurd hb2' hb2
        · intro hsome
          simp [mapGet] at hsome
      · intro q1' q2' h1' h2' _ _
        rw [h2n] at h2'
        cases h2'
  · have h1n : mapGet fs1 "properties" = none := by
      cases hm : mapGet fs1 "properties" <;> simp_all
    refine ⟨[("type", t)],
      merge_schemas_same_type_no_props fs1 fs2 t hne ht1 ht2 (Or.inl h1n),
      by simp [mapGet], by simp [mapGet], ?_, ?_⟩
    · constructor
      · rintro ⟨hb1', _⟩
        exact absurd hb1' hb1
      · intro hsome
        simp [mapGet] at hsome
    · intro q1' q2' h1' h2' _ _
      rw [h1n] at h1'
      cases h1'

/-- Witness for the amended C5 at the two object schemas of the repo's
    `test_merge_schemas_same_type` test. -/
theorem c5_merge_same_type_distinct_witness :
    (Json.obj [("properties", Json.obj [("a", mkType "string")]), ("type", Json.str "object")]
        ≠ Json.obj [("properties", Json.obj [("b", mkType "integer")]),
          ("type", Json.str "object")] ∧
      mapGet [("properties", Json.obj [("a", mkType "string")]), ("type", Json.str "object")]
          "type" = some (Json.str "object") ∧
      mapGet [("properties", Json.obj [("b", mkType "integer")]), ("type", Json.str "object")]
          "type" = some (Json.str "object") ∧
      propsEntryIsObj [("properties", Json.obj [("a", mkType "string")]),
          ("type", Json.str "object")] = true ∧
      propsEntryIsObj [("properties", Json.obj [("b", mkType "integer")]),
          ("type", Json.str "object")] = true) ∧
    (∃ mfs, merge_schemas
        (.obj [("properties", Json.obj [("a", mkType "string")]), ("type", Json.str "object")])
        (.obj [("properties", Json.obj [("b", mkType "integer")]), ("type", Json.str "object")])
        = some (.obj mfs) ∧
      mapGet mfs "type" = some (Json.str "object") ∧
      mapGet mfs "required" = none ∧
      (((mapGet [("properties", Json.obj [("a", mkType "string")]),
            ("type", Json.str "object")] "properties").isSome = true ∧
        (mapGet [("properties", Json.obj [("b", mkType "integer")]),
            ("type", Json.str "object")] "properties").isSome = true)
        ↔ (mapGet mfs "properties").isSome = true) ∧
      (∀ q1 q2,
          mapGet [("properties", Json.obj [("a", mkType "string")]),
            ("type", Json.str "object")] "properties" = some (.obj q1) →
          mapGet [("properties", Json.obj [("b", mkType "integer")]),
            ("type", Json.str "object")] "properties" = some (.obj q2) →
          (q1.map Prod.fst).Nodup → (q2.map Prod.fst).Nodup →
          ∃ P, mapGet mfs "properties" = some (.obj P) ∧
            ∀ k, mapGet P k = (mapGet q2 k).orElse (fun _ => mapGet q1 k))) :=
  ⟨⟨by decide, by decide, by decide, by decide, by decide⟩,
    c5_merge_same_type_distinct _ _ _ (by decide) (by decide) (by decide)
      (by decide) (by decide)⟩

/-- Claim C8: a number infers `{type: "integer"}` exactly when the
    numeral is held as an integer representable in signed 64 bits (the
    distinction is on the representation, so the float `3.0` gives
    `"number"` while `3` gives `"integer"`), and `{type: "number"}`
    otherwise. The hypothesis restricts payloads to the ranges
    serde_json's parser produces. -/
theorem c8_number_integer_classification (n : JNum) (h : n.serde_ok = true) :
    (generate_json_schema (.num n) = some (mkType "integer") ↔ specIntegerNumeral n) ∧
    (generate_json_schema (.num n) = some (mkType "number") ↔ ¬ specIntegerNumeral n) ∧
    generate_json_schema (.num (.posInt 3)) = some (mkType "integer") ∧
    generate_json_schema (.num (.float 3)) = some (mkType "number") := by
  refine ⟨?_, ?_, by decide, by decide⟩ <;>
    cases n with
    | posInt k =>
      by_cases hk : k ≤ i64Max <;>
        simp [generate_json_schema, JNum.is_i64, hk, mkType, specIntegerNumeral]
    | negInt z =>
      simp only [JNum.serde_ok, decide_eq_true_eq] at h
      simp [generate_json_schema, JNum.is_i64, mkType, specIntegerNumeral, h.1]
    | float q =>
      simp [generate_json_schema, JNum.is_i64, mkType, specIntegerNumeral]

/-- Witness for C8 at the parsed numeral `-5`. -/
theorem c8_number_integer_classification_witness :
    (JNum.negInt (-5)).serde_ok = true ∧
    ((generate_json_schema (.num (.negInt (-5))) = some (mkType "integer")
        ↔ specIntegerNumeral (.negInt (-5))) ∧
      (generate_json_schema (.num (.negInt (-5))) = some (mkType "number")
        ↔ ¬ specIntegerNumeral (.negInt (-5))) ∧
      generate_json_schema (.num (.posInt 3)) = some (mkType "integer") ∧
      generate_json_schema (.num (.float 3)) = some (mkType "number")) :=
  ⟨by decide, c8_number_integer_classification _ (by decide)⟩

end JsonSchemaGen
